import Mathlib

/-
Verification of the argflags library (eurozulu/argflags): a shallow embedding
of argflags.go and of the flag-field implementation file (FlagField, setValue,
stringToType, setFieldSlice, findFieldIndex, ensureNotNil, findField).

Go reflection is modelled by an explicit universe of Go types (GoType) and
Go values (GoVal).  Machine integers are modelled as Int with explicit range
checks where the standard library performs them; errors are Except values;
a Go panic is modelled as the GoErr.panicked error, which no code path
catches.  Strings from the Go standard library (strings.Split,
strings.TrimLeft, strings.HasPrefix, strings.EqualFold restricted to ASCII
folding, strconv.ParseBool, strconv.ParseInt, strconv.Atoi and a decimal
fragment of strconv.ParseFloat) are modelled by the functions below.
-/

/-- A Go error value or an uncaught Go panic. -/
inductive GoErr where
  | err (msg : String)
  | panicked (msg : String)
deriving DecidableEq

/-- Models ASCII simple case folding of a single character (the fragment of
Unicode folding that strings.EqualFold applies to ASCII letters). -/
def lowerChar (c : Char) : Char :=
  if 'A' ≤ c ∧ c ≤ 'Z' then Char.ofNat (c.toNat + 32) else c

/-- Models strings.EqualFold, restricted to ASCII simple folding. -/
def eqFold (a b : String) : Bool :=
  a.data.map lowerChar == b.data.map lowerChar

/-- Models strings.HasPrefix(s, "-"). -/
def startsWithDash (s : String) : Bool :=
  match s.data with
  | '-' :: _ => true
  | _ => false

/-- Helper for trimLeftDash: drops every leading dash character. -/
def dropDashes : List Char → List Char
  | [] => []
  | c :: rest => if c = '-' then dropDashes rest else c :: rest

/-- Models strings.TrimLeft(s, "-"). -/
def trimLeftDash (s : String) : String :=
  String.mk (dropDashes s.data)

/-- Helper for splitOnComma, working on character lists; the accumulator holds
the current chunk reversed. -/
def splitCharsOnComma : List Char → List Char → List (List Char)
  | [], acc => [acc.reverse]
  | c :: rest, acc =>
    if c = ',' then acc.reverse :: splitCharsOnComma rest []
    else splitCharsOnComma rest (c :: acc)

/-- Models strings.Split(s, ",") for the non-empty separator ",": the empty
string yields the one-element list [""], exactly as in Go. -/
def splitOnComma (s : String) : List String :=
  (splitCharsOnComma s.data []).map String.mk

/-- Models strconv.ParseBool: accepts exactly the twelve literals the Go
standard library accepts; none on anything else. -/
def parseBool (s : String) : Option Bool :=
  if s = "1" ∨ s = "t" ∨ s = "T" ∨ s = "true" ∨ s = "TRUE" ∨ s = "True" then
    some true
  else if s = "0" ∨ s = "f" ∨ s = "F" ∨ s = "false" ∨ s = "FALSE" ∨ s = "False" then
    some false
  else none

/-- Models the digit value of a character as strconv's lower(c) table does:
decimal digits, then latin letters for bases above ten. -/
def digitVal (c : Char) : Option Nat :=
  if '0' ≤ c ∧ c ≤ '9' then some (c.toNat - 48)
  else if 'a' ≤ c ∧ c ≤ 'z' then some (c.toNat - 97 + 10)
  else if 'A' ≤ c ∧ c ≤ 'Z' then some (c.toNat - 65 + 10)
  else none

/-- Accumulates the digits of a numeral in the given base; none as soon as a
character is not a digit of that base. -/
def digitsVal (base : Nat) (acc : Nat) : List Char → Option Nat
  | [] => some acc
  | c :: cs =>
    match digitVal c with
    | some d => if d < base then digitsVal base (acc * base + d) cs else none
    | none => none

/-- Models strconv.ParseInt(s, base, bitSize): the empty string is a syntax
error, then the sign is stripped, then a base outside 2..36 is an
"invalid base" error (this is what the source hits by calling ParseInt with
base 64), then the digits are parsed and checked against the signed range of
the bit size (0 meaning the 64-bit platform int).  NumError wrapping of the
message is elided. -/
def goParseInt (s : String) (base : Nat) (bitSize : Nat) : Except String Int :=
  match s.data with
  | [] => Except.error "invalid syntax"
  | c :: cs =>
    let neg := c = '-'
    let ds := if c = '-' ∨ c = '+' then cs else c :: cs
    if ds = [] then Except.error "invalid syntax"
    else if ¬ (2 ≤ base ∧ base ≤ 36) then
      Except.error ("invalid base " ++ Nat.repr base)
    else
      match digitsVal base 0 ds with
      | none => Except.error "invalid syntax"
      | some n =>
        let bs := if bitSize = 0 then 64 else bitSize
        if neg then
          if n ≤ 2 ^ (bs - 1) then Except.ok (-(n : Int))
          else Except.error "value out of range"
        else
          if n < 2 ^ (bs - 1) then Except.ok (n : Int)
          else Except.error "value out of range"

/-- Models strconv.Atoi, which is ParseInt(s, 10, 0). -/
def atoi (s : String) : Except String Int :=
  goParseInt s 10 0

/-- Boolean test for a decimal digit character. -/
def isDigitChar (c : Char) : Bool :=
  decide ('0' ≤ c ∧ c ≤ '9')

/-- The rational value of an optionally negated decimal numeral with integer
part ip and fractional part fp. -/
def ratOfParts (neg : Bool) (ip fp : List Char) : Rat :=
  let n : Rat := ((digitsVal 10 0 ip).getD 0 : Nat)
  let f : Rat := ((digitsVal 10 0 fp).getD 0 : Nat)
  let q := n + f / (10 ^ fp.length : Rat)
  if neg then -q else q

/-- Models strconv.ParseFloat restricted to plain decimal numerals (optional
sign, digits, optional fractional part).  Exponents, hexadecimal floats and
the inf/NaN spellings are not modelled; the parsed value is kept as an exact
rational, so binary rounding (and the 32-bit narrowing the bitSize argument
would request) is not modelled either.  No claim depends on the numeric value
itself, only on success or failure and on the dynamic type of the result. -/
def goParseFloat (s : String) (_bitSize : Nat) : Except String Rat :=
  match s.data with
  | [] => Except.error "invalid syntax"
  | c :: cs =>
    let neg := c = '-'
    let ds := if c = '-' ∨ c = '+' then cs else c :: cs
    match ds.span isDigitChar with
    | (ip, []) =>
      if ip = [] then Except.error "invalid syntax"
      else Except.ok (ratOfParts neg ip [])
    | (ip, '.' :: fp) =>
      if (ip = [] ∧ fp = []) ∨ ¬ (fp.all isDigitChar) then
        Except.error "invalid syntax"
      else Except.ok (ratOfParts neg ip fp)
    | (_, _) => Except.error "invalid syntax"

mutual
/-- The universe of Go types the library manipulates: the scalar kinds the
coercion switch of stringToType names, pointers, slices, structs and
interfaces.  A struct field carries its name, the value of its flag tag
(what f.Tag.Get("flag") returns; the empty string when the tag is absent),
its exported flag and its type. -/
inductive GoType where
  | string
  | bool
  | int
  | i64
  | i32
  | i16
  | i8
  | f64
  | f32
  | ptr (elem : GoType)
  | slice (elem : GoType)
  | strct (fields : Fields)
  | iface

/-- The declared field list of a struct type, in declaration order. -/
inductive Fields where
  | nil
  | cons (name tag : String) (exported : Bool) (ty : GoType) (rest : Fields)
end

mutual
/-- A Go value of the modelled universe.  A nil pointer and a non-nil pointer
are distinct constructors; an interface value records the dynamic type of the
value it wraps. -/
inductive GoVal where
  | str (s : String)
  | bool (b : Bool)
  | int (n : Int)
  | i64 (n : Int)
  | i32 (n : Int)
  | i16 (n : Int)
  | i8 (n : Int)
  | f64 (q : Rat)
  | f32 (q : Rat)
  | ptrNil
  | ptrV (p : GoVal)
  | slice (elems : Vals)
  | strct (fields : Vals)
  | ifaceNil
  | ifaceV (dynTy : GoType) (v : GoVal)

/-- A list of Go values (the fields of a struct value, or slice elements). -/
inductive Vals where
  | nil
  | cons (v : GoVal) (rest : Vals)
end

/-- The type of the field at a given position of a field list (reflect's
t.Field(i).Type). -/
def typeAt : Fields → Nat → Option GoType
  | Fields.nil, _ => none
  | Fields.cons _ _ _ ty _, 0 => some ty
  | Fields.cons _ _ _ _ rest, n + 1 => typeAt rest n

/-- The value at a given position of a value list (reflect's v.Field(i)). -/
def getVal : Vals → Nat → Option GoVal
  | Vals.nil, _ => none
  | Vals.cons v _, 0 => some v
  | Vals.cons _ rest, n + 1 => getVal rest n

/-- Replaces the value at a given position of a value list (a reflect
field write). -/
def setVal : Vals → Nat → GoVal → Vals
  | Vals.nil, _, _ => Vals.nil
  | Vals.cons _ rest, 0, x => Vals.cons x rest
  | Vals.cons v rest, n + 1, x => Vals.cons v (setVal rest n x)

mutual
/-- The zero value of a Go type (what reflect.New allocates and
reflect.MakeSlice fills elements with). -/
def zeroVal : GoType → GoVal
  | GoType.string => GoVal.str ""
  | GoType.bool => GoVal.bool false
  | GoType.int => GoVal.int 0
  | GoType.i64 => GoVal.i64 0
  | GoType.i32 => GoVal.i32 0
  | GoType.i16 => GoVal.i16 0
  | GoType.i8 => GoVal.i8 0
  | GoType.f64 => GoVal.f64 0
  | GoType.f32 => GoVal.f32 0
  | GoType.ptr _ => GoVal.ptrNil
  | GoType.slice _ => GoVal.slice Vals.nil
  | GoType.strct fts => GoVal.strct (zeroVals fts)
  | GoType.iface => GoVal.ifaceNil

/-- The zero values of a field list, fieldwise. -/
def zeroVals : Fields → Vals
  | Fields.nil => Vals.nil
  | Fields.cons _ _ _ ty rest => Vals.cons (zeroVal ty) (zeroVals rest)
end

/-- Models reflect.Type.Name(): the declared name of a scalar kind; the empty
string for unnamed composite types (struct names are not modelled). -/
def typeName : GoType → String
  | GoType.string => "string"
  | GoType.bool => "bool"
  | GoType.int => "int"
  | GoType.i64 => "int64"
  | GoType.i32 => "int32"
  | GoType.i16 => "int16"
  | GoType.i8 => "int8"
  | GoType.f64 => "float64"
  | GoType.f32 => "float32"
  | GoType.ptr _ => ""
  | GoType.slice _ => ""
  | GoType.strct _ => ""
  | GoType.iface => ""

/-- The dynamic type name of a scalar value, for the reflect.Set panic
message. -/
def dynTypeName : GoVal → String
  | GoVal.str _ => "string"
  | GoVal.bool _ => "bool"
  | GoVal.int _ => "int"
  | GoVal.i64 _ => "int64"
  | GoVal.i32 _ => "int32"
  | GoVal.i16 _ => "int16"
  | GoVal.i8 _ => "int8"
  | GoVal.f64 _ => "float64"
  | GoVal.f32 _ => "float32"
  | _ => ""

/-- Embeds isStructPointer of argflags.go: t.Kind() == Ptr and
t.Elem().Kind() == Struct. -/
def isStructPointer : GoType → Bool
  | GoType.ptr (GoType.strct _) => true
  | _ => false

/-- Kind() == reflect.Struct. -/
def isStructKind : GoType → Bool
  | GoType.strct _ => true
  | _ => false

/-- Kind() == reflect.Bool. -/
def isBoolKind : GoType → Bool
  | GoType.bool => true
  | _ => false

/-- Embeds isSubArgTag: does the tag list contain the reserved "+" marker. -/
def isSubArgTag : List String → Bool
  | [] => false
  | t :: rest => if t = "+" then true else isSubArgTag rest

/-- Embeds isNameInTag: scans the tag list in order, skipping the reserved
markers, and matches case-insensitively. -/
def isNameInTag (name : String) : List String → Bool
  | [] => false
  | t :: rest =>
    if t = "omitempty" ∨ t = "-" ∨ t = "+" then isNameInTag name rest
    else if eqFold t name then true
    else isNameInTag name rest

/-- Embeds the direct-field pass of findFieldIndex (the first loop of the
source): fields are scanned in declaration order, unexported fields are
skipped, the field name is checked first and the tag names second, and a
field tagged "+" whose type is neither a struct nor a pointer to one raises
the log.Panicf configuration panic.  Returns the position of the first match,
or none when the scan completes.  The source collects the sub-argument
positions during this same loop; the embedding recomputes them afterwards in
ffiSubs, which visits exactly the same fields in the same order. -/
def directScan (name : String) (fts : Fields) (i : Nat) : Except String (Option Nat) :=
  match fts with
  | Fields.nil => Except.ok none
  | Fields.cons fname tag ex ty rest =>
    if ¬ ex then directScan name rest (i + 1)
    else if eqFold name fname then Except.ok (some i)
    else
      let tags := splitOnComma tag
      if isNameInTag name tags then Except.ok (some i)
      else if isSubArgTag tags ∧ ¬ (isStructPointer ty ∨ isStructKind ty) then
        Except.error ("Field " ++ fname ++
          " is tagged as a sub argument field, but is not a struct or pointer to a struct")
      else directScan name rest (i + 1)

mutual
/-- Embeds findFieldIndex: dereferences a pointer type, scans the direct
fields first, and only when no direct field matches descends into the fields
tagged "+" in declaration order.  An uncaught log.Panicf is the error case;
Go's nil result (no match) is the empty path. -/
def findFieldIndex (name : String) (t : GoType) (parents : List Nat) :
    Except String (List Nat) :=
  match t with
  | GoType.ptr e => findFieldIndex name e parents
  | GoType.strct fts =>
    match directScan name fts 0 with
    | Except.error m => Except.error m
    | Except.ok (some i) => Except.ok (parents ++ [i])
    | Except.ok none => ffiSubs name fts 0 parents
  | _ => Except.ok []

/-- Embeds the second loop of findFieldIndex: recurses into each field tagged
"+" in declaration order and returns the first non-empty result.  The source
iterates the positions collected during the first pass; visiting the fields
again and filtering on the same condition visits the same fields in the same
order (the panic for a mis-tagged field already fired during directScan). -/
def ffiSubs (name : String) (fts : Fields) (i : Nat) (parents : List Nat) :
    Except String (List Nat) :=
  match fts with
  | Fields.nil => Except.ok []
  | Fields.cons _ tag ex ty rest =>
    if ex ∧ isSubArgTag (splitOnComma tag) then
      match findFieldIndex name ty (parents ++ [i]) with
      | Except.error m => Except.error m
      | Except.ok (x :: xs) => Except.ok (x :: xs)
      | Except.ok [] => ffiSubs name rest (i + 1) parents
    else ffiSubs name rest (i + 1) parents
end

/-- Embeds ensureNotNil: walks the record value along the index path and
replaces every nil pointer field met on the way by a freshly allocated zero
value of its pointee type, descending through the (now non-nil) pointer.
The source mutates in place; the embedding rebuilds the value.  The
out-of-range and non-struct cases can not arise for paths produced by
findFieldIndex and are left as the identity. -/
def ensureNotNil (t : GoType) (v : GoVal) (index : List Nat) : GoVal :=
  match index with
  | [] => v
  | i :: rest =>
    match t, v with
    | GoType.strct fts, GoVal.strct fvs =>
      match typeAt fts i, getVal fvs i with
      | some ft, some fv =>
        match ft with
        | GoType.ptr e =>
          let p := match fv with
            | GoVal.ptrV p0 => p0
            | _ => zeroVal e
          GoVal.strct (setVal fvs i (GoVal.ptrV (ensureNotNil e p rest)))
        | _ => GoVal.strct (setVal fvs i (ensureNotNil ft fv rest))
      | _, _ => v
    | _, _ => v

/-- The type reached by walking an index path from a type, dereferencing
pointers between two steps exactly as reflect's Value.FieldByIndex does on
the value side (only intermediate pointer fields are dereferenced, never the
terminal field).  In resolver-produced paths every intermediate pointer
points to a struct. -/
def fieldByIndexType : GoType → List Nat → Option GoType
  | t, [] => some t
  | GoType.strct fts, i :: rest =>
    match typeAt fts i with
    | some ft =>
      if rest = [] then some ft
      else
        match ft with
        | GoType.ptr e => fieldByIndexType e rest
        | _ => fieldByIndexType ft rest
    | none => none
  | _, _ :: _ => none

/-- Total wrapper around fieldByIndexType; paths produced by findFieldIndex
are always valid, so the default is never reached there. -/
def fieldTypeAt (t : GoType) (index : List Nat) : GoType :=
  (fieldByIndexType t index).getD GoType.iface

/-- The field value reached by walking an index path from a value, with the
same navigation as setValueAt below (reflect's Value.FieldByIndex).  Used by
the theorems to speak about the field a path denotes. -/
def valueAt (t : GoType) (v : GoVal) (index : List Nat) : Option (GoType × GoVal) :=
  match index with
  | [] => some (t, v)
  | i :: rest =>
    match t, v with
    | GoType.strct fts, GoVal.strct fvs =>
      match typeAt fts i, getVal fvs i with
      | some ft, some fv =>
        if rest = [] then some (ft, fv)
        else
          match ft, fv with
          | GoType.ptr e, GoVal.ptrV p => valueAt e p rest
          | GoType.ptr _, GoVal.ptrNil => none
          | _, _ => valueAt ft fv rest
      | _, _ => none
    | _, _ => none

/-- Models asTextUnmarshaler: no type of the modelled universe implements
encoding.TextUnmarshaler (the universe holds only base kinds, pointers,
slices, plain structs and interfaces), so the check always fails. -/
def asTextUnmarshaler (_t : GoType) : Option Unit :=
  none

/-- Embeds stringToType: the per-kind coercion switch.  Note two facts taken
directly from the source: the int64/int32/int16/int8 arm calls
strconv.ParseInt(s, 64, 64) — base 64 — and its successful result would be a
value of dynamic type int64 whatever the field width; the float32 arm calls
strconv.ParseFloat(s, 32), whose result is a value of dynamic type float64. -/
def stringToType (s : String) (t : GoType) : Except GoErr GoVal :=
  match t with
  | GoType.string => Except.ok (GoVal.str s)
  | GoType.bool =>
    match parseBool s with
    | some b => Except.ok (GoVal.bool b)
    | none => Except.error (GoErr.err "invalid syntax")
  | GoType.int =>
    match atoi s with
    | Except.ok n => Except.ok (GoVal.int n)
    | Except.error m => Except.error (GoErr.err m)
  | GoType.i64 | GoType.i32 | GoType.i16 | GoType.i8 =>
    match goParseInt s 64 64 with
    | Except.ok n => Except.ok (GoVal.i64 n)
    | Except.error m => Except.error (GoErr.err m)
  | GoType.f64 =>
    match goParseFloat s 64 with
    | Except.ok q => Except.ok (GoVal.f64 q)
    | Except.error m => Except.error (GoErr.err m)
  | GoType.f32 =>
    match goParseFloat s 32 with
    | Except.ok q => Except.ok (GoVal.f64 q)
    | Except.error m => Except.error (GoErr.err m)
  | _ => Except.error (GoErr.err (typeName t ++ " is an unsupported field type"))

/-- Go assignability between the dynamic type of a coerced scalar and the
declared field type: identical kinds only. -/
def assignable : GoVal → GoType → Bool
  | GoVal.str _, GoType.string => true
  | GoVal.bool _, GoType.bool => true
  | GoVal.int _, GoType.int => true
  | GoVal.i64 _, GoType.i64 => true
  | GoVal.i32 _, GoType.i32 => true
  | GoVal.i16 _, GoType.i16 => true
  | GoVal.i8 _, GoType.i8 => true
  | GoVal.f64 _, GoType.f64 => true
  | GoVal.f32 _, GoType.f32 => true
  | _, _ => false

/-- Models fld.Set(reflect.ValueOf(sv)): succeeds when the dynamic type of sv
is assignable to the field type, panics otherwise. -/
def reflectSet (t : GoType) (sv : GoVal) : Except GoErr GoVal :=
  if assignable sv t then Except.ok sv
  else
    Except.error (GoErr.panicked ("reflect.Set: value of type " ++ dynTypeName sv ++
      " is not assignable to type " ++ typeName t))

mutual
/-- Embeds setValue: the TextUnmarshaler branch is a no-op in the modelled
universe (asTextUnmarshaler always fails), then the kind switch: a pointer
field is allocated when nil and the pointee is set; a slice field is set
from the comma-split of the value; every other kind goes through
stringToType and the reflect field write. -/
def setValue (value : String) (t : GoType) (fld : GoVal) : Except GoErr GoVal :=
  match asTextUnmarshaler t with
  | some _ => Except.error (GoErr.panicked "unreachable")
  | none =>
    match t with
    | GoType.ptr e =>
      match fld with
      | GoVal.ptrNil =>
        match setValue value e (zeroVal e) with
        | Except.ok p => Except.ok (GoVal.ptrV p)
        | Except.error er => Except.error er
      | GoVal.ptrV p =>
        match setValue value e p with
        | Except.ok p2 => Except.ok (GoVal.ptrV p2)
        | Except.error er => Except.error er
      | _ => Except.error (GoErr.panicked "value does not have pointer type")
    | GoType.slice e => setFieldSlice (splitOnComma value) e
    | _ =>
      match stringToType value t with
      | Except.ok sv => reflectSet t sv
      | Except.error er => Except.error er
termination_by (sizeOf t, 0)

/-- Embeds setFieldSlice: builds a fresh slice of the same length as the
split, assigns each substring into the corresponding zero-initialised
element, and only on full success produces the new slice value (the field
write fld.Set(inst) of the source happens after the loop, so on any element
error nothing is installed). -/
def setFieldSlice (ss : List String) (e : GoType) : Except GoErr GoVal :=
  match setSliceElems ss e with
  | Except.ok vs => Except.ok (GoVal.slice vs)
  | Except.error er => Except.error er
termination_by (sizeOf e, ss.length + 2)

/-- The element loop of setFieldSlice: each element starts as the zero value
of the element type and is set from its substring; the first error aborts. -/
def setSliceElems (ss : List String) (e : GoType) : Except GoErr Vals :=
  match ss with
  | [] => Except.ok Vals.nil
  | s :: rest =>
    match setValue s e (zeroVal e) with
    | Except.error er => Except.error er
    | Except.ok v =>
      match setSliceElems rest e with
      | Except.error er => Except.error er
      | Except.ok vs => Except.ok (Vals.cons v vs)
termination_by (sizeOf e, ss.length + 1)
end

/-- Embeds fld := v.FieldByIndex(index) followed by setValue(value, fld):
walks the path, dereferencing intermediate pointers (after ensureNotNil they
are non-nil; a nil one would be a reflect panic), applies setValue to the
terminal field and writes the result back along the path. -/
def setValueAt (t : GoType) (v : GoVal) (index : List Nat) (value : String) :
    Except GoErr GoVal :=
  match index with
  | [] => setValue value t v
  | i :: rest =>
    match t, v with
    | GoType.strct fts, GoVal.strct fvs =>
      match typeAt fts i, getVal fvs i with
      | some ft, some fv =>
        if rest = [] then
          match setValue value ft fv with
          | Except.ok fv2 => Except.ok (GoVal.strct (setVal fvs i fv2))
          | Except.error er => Except.error er
        else
          match ft, fv with
          | GoType.ptr e, GoVal.ptrV p =>
            match setValueAt e p rest value with
            | Except.ok p2 => Except.ok (GoVal.strct (setVal fvs i (GoVal.ptrV p2)))
            | Except.error er => Except.error er
          | GoType.ptr _, GoVal.ptrNil =>
            Except.error (GoErr.panicked "indirection through nil pointer to embedded struct")
          | _, _ =>
            match setValueAt ft fv rest value with
            | Except.ok fv2 => Except.ok (GoVal.strct (setVal fvs i fv2))
            | Except.error er => Except.error er
      | _, _ => Except.error (GoErr.panicked "field index out of range")
    | _, _ => Except.error (GoErr.panicked "field access on non-struct value")

/-- Embeds findField (and with it the newFlagField of the loop): resolves the
name to an index path, materialises nil pointers along it, and yields the
path together with the updated record; the not-found case is the Go error
the loop swallows, the configuration panic is uncaught. -/
def findField (name : String) (t : GoType) (v : GoVal) :
    Except GoErr (List Nat × GoVal) :=
  match findFieldIndex name t [] with
  | Except.error m => Except.error (GoErr.panicked m)
  | Except.ok [] => Except.error (GoErr.err ("field " ++ name ++ " not found in " ++ typeName t))
  | Except.ok (i :: is) => Except.ok (i :: is, ensureNotNil t v (i :: is))

/-- Embeds findFlagValue of argflags.go: the candidate value is the next
token when it exists and does not start with a dash; a boolean field keeps
the candidate only when it parses as a boolean literal and otherwise gets
"true" with nothing consumed; a missing candidate for any other field is the
"no value found" error; otherwise the candidate is consumed. -/
def findFlagValue (args : List String) (fldType : GoType) :
    Except GoErr (String × List String) :=
  let value : String :=
    match args with
    | [] => ""
    | a :: _ => if startsWithDash a then "" else a
  if isBoolKind fldType ∧ (value = "" ∨ parseBool value = none) then
    Except.ok ("true", args)
  else if value = "" then
    Except.error (GoErr.err "no value found")
  else
    Except.ok (value, args.drop 1)

/-- Embeds getStructValue: anything but a pointer to a struct is the
"flags can only be applied to a struct pointer" error; a pointer to a struct
is dereferenced.  The interface branch of the source is dead code — the
isStructPointer gate already requires the pointee type to be a struct kind,
never an interface — so it has no counterpart here.  A nil struct pointer
would surface in Go as a reflect panic at the first field access; it is
modelled as an immediate panic. -/
def getStructValue (t : GoType) (v : GoVal) : Except GoErr (GoType × GoVal) :=
  if ¬ isStructPointer t then
    Except.error (GoErr.err "flags can only be applied to a struct pointer")
  else
    match t, v with
    | GoType.ptr te, GoVal.ptrV ve => Except.ok (te, ve)
    | GoType.ptr _, GoVal.ptrNil => Except.error (GoErr.panicked "nil struct pointer")
    | _, _ => Except.error (GoErr.panicked "value does not match its type")

/-- Embeds the token loop of ApplyTo: a token without the dash marker goes to
the unused list; a flag token is stripped and resolved (a not-found error
sends the original token to the unused list, the configuration panic is
uncaught); the value window is chosen by findFlagValue against the matched
field's type, the cursor advances past whatever it consumed, and the field is
set, a setter error aborting the call with the flag token in the message. -/
def applyToLoop (t : GoType) (args : List String) (v : GoVal) (unused : List String) :
    Except GoErr (List String × GoVal) :=
  match args with
  | [] => Except.ok (unused, v)
  | arg :: rest =>
    if ¬ startsWithDash arg then applyToLoop t rest v (unused ++ [arg])
    else
      match findField (trimLeftDash arg) t v with
      | Except.error (GoErr.panicked m) => Except.error (GoErr.panicked m)
      | Except.error (GoErr.err _) => applyToLoop t rest v (unused ++ [arg])
      | Except.ok (index, v1) =>
        match hfv : findFlagValue rest (fieldTypeAt t index) with
        | Except.error (GoErr.err m) => Except.error (GoErr.err (arg ++ "  " ++ m))
        | Except.error (GoErr.panicked m) => Except.error (GoErr.panicked m)
        | Except.ok (argValue, remain) =>
          match setValueAt t v1 index argValue with
          | Except.error (GoErr.err m) =>
            Except.error (GoErr.err (String.mk [Char.ofNat 39] ++ arg ++
              String.mk [Char.ofNat 39] ++ "  " ++ m))
          | Except.error (GoErr.panicked m) => Except.error (GoErr.panicked m)
          | Except.ok v2 => applyToLoop t remain v2 unused
termination_by args.length
decreasing_by
  · simp
  · simp
  · unfold findFlagValue at hfv
    cases rest with
    | nil =>
      simp only at hfv
      repeat' split at hfv
      all_goals try cases hfv
      all_goals simp only [List.length_cons, List.length_nil, List.length_drop]
      all_goals omega
    | cons b bs =>
      simp only at hfv
      repeat' split at hfv
      all_goals try cases hfv
      all_goals simp only [List.length_cons, List.length_nil, List.length_drop]
      all_goals omega

/-- Embeds ApplyTo: resolve the record argument to its struct value, then run
the token loop with an empty unused list. -/
def ApplyTo (args : List String) (t : GoType) (v : GoVal) :
    Except GoErr (List String × GoVal) :=
  match getStructValue t v with
  | Except.error e => Except.error e
  | Except.ok (st, sv) => applyToLoop st args sv []

/-- Modelled from the spec: the alias check of the Field Resolver contract —
the tag metadata parsed into an alias set, the reserved markers excluded from
being matchable names, and the name compared case-insensitively against the
remaining aliases. -/
def specAliasMatch (name : String) (tag : String) : Bool :=
  ((splitOnComma tag).filter fun a => ¬ (a = "+" ∨ a = "-" ∨ a = "omitempty")).any
    fun a => eqFold a name

/-- Modelled from the spec: the direct-field pass of the Field Resolver —
iterate the exported fields in declaration order and return the first whose
declared name (checked first) or declared alias (checked second) matches the
flag name case-insensitively. -/
def specDirectMatch (name : String) (fts : Fields) (i : Nat) : Option Nat :=
  match fts with
  | Fields.nil => none
  | Fields.cons fname tag ex _ rest =>
    if ex ∧ (eqFold name fname ∨ specAliasMatch name tag) then some i
    else specDirectMatch name rest (i + 1)

mutual
/-- Modelled from the spec: the Field Resolver of §4.1 — all direct fields
are checked before descending into any promoted sub-structure, and the
promoted sub-structures are searched in declaration order, pointer types
being dereferenced first.  This is the reference resolution the claim about
resolution order is checked against. -/
def resolveSpec (name : String) (t : GoType) (parents : List Nat) : List Nat :=
  match t with
  | GoType.ptr e => resolveSpec name e parents
  | GoType.strct fts =>
    match specDirectMatch name fts 0 with
    | some i => parents ++ [i]
    | none => resolveSpecSubs name fts 0 parents
  | _ => []

/-- Modelled from the spec: the descent of the Field Resolver into the
fields marked as promoted sub-structures, in declaration order, first
successful match wins. -/
def resolveSpecSubs (name : String) (fts : Fields) (i : Nat) (parents : List Nat) :
    List Nat :=
  match fts with
  | Fields.nil => []
  | Fields.cons _ tag ex ty rest =>
    if ex ∧ (splitOnComma tag).contains "+" then
      match resolveSpec name ty (parents ++ [i]) with
      | [] => resolveSpecSubs name rest (i + 1) parents
      | x :: xs => x :: xs
    else resolveSpecSubs name rest (i + 1) parents
end

/-- Builds the Vals of a list of strings (the expected result of assigning a
comma-separated value to a []string field). -/
def strVals : List String → Vals
  | [] => Vals.nil
  | s :: rest => Vals.cons (GoVal.str s) (strVals rest)

/-- The flag tag of the field at a given position (what Tag.Get returns). -/
def tagAt : Fields → Nat → Option String
  | Fields.nil, _ => none
  | Fields.cons _ tag _ _ _, 0 => some tag
  | Fields.cons _ _ _ _ rest, n + 1 => tagAt rest n

/-- The position of the first exported field of a field list, when any. -/
def firstExported : Fields → Option Nat
  | Fields.nil => none
  | Fields.cons _ _ ex _ rest =>
    if ex then some 0 else (firstExported rest).map (· + 1)

/-- Fixture: a record type with a single exported bool field and no tag. -/
def recBoolT : GoType :=
  GoType.strct (Fields.cons "Verbose" "" true GoType.bool Fields.nil)

/-- Fixture: the zero value of recBoolT. -/
def recBoolV : GoVal :=
  GoVal.strct (Vals.cons (GoVal.bool false) Vals.nil)

/-- Fixture: a record type with a single exported int field and no tag. -/
def recIntT : GoType :=
  GoType.strct (Fields.cons "Count" "" true GoType.int Fields.nil)

/-- Fixture: the zero value of recIntT. -/
def recIntV : GoVal :=
  GoVal.strct (Vals.cons (GoVal.int 0) Vals.nil)

/-- Fixture: the field list of the promoted sub-structure record. -/
def recPortFields : Fields :=
  Fields.cons "Port" "" true GoType.int Fields.nil

/-- Fixture: the field list of a record with one promoted sub-structure
pointer field. -/
def recSubFields : Fields :=
  Fields.cons "Sub" "+" true (GoType.ptr (GoType.strct recPortFields)) Fields.nil

/-- Fixture: the record type with one promoted sub-structure pointer field. -/
def recSubT : GoType :=
  GoType.strct recSubFields

/-- Fixture: the field values of recSubT with the sub-structure pointer nil. -/
def recSubVals : Vals :=
  Vals.cons GoVal.ptrNil Vals.nil

/-- Fixture: the value of recSubT with the sub-structure pointer nil. -/
def recSubV : GoVal :=
  GoVal.strct recSubVals

theorem getVal_setVal_self : ∀ (vs : Vals) (i : Nat) (w x : GoVal),
    getVal vs i = some w → getVal (setVal vs i x) i = some x
  | Vals.nil, i, w, x, h => by simp [getVal] at h
  | Vals.cons v rest, 0, w, x, h => by simp [getVal, setVal]
  | Vals.cons v rest, n + 1, w, x, h => by
    simp only [getVal, setVal] at h ⊢
    exact getVal_setVal_self rest n w x h

theorem setValueAt_cons (fts : Fields) (fvs : Vals) (i : Nat) (rest : List Nat)
    (value : String) :
    setValueAt (GoType.strct fts) (GoVal.strct fvs) (i :: rest) value =
      match typeAt fts i, getVal fvs i with
      | some ft, some fv =>
        if rest = [] then
          match setValue value ft fv with
          | Except.ok fv2 => Except.ok (GoVal.strct (setVal fvs i fv2))
          | Except.error er => Except.error er
        else
          match ft, fv with
          | GoType.ptr e, GoVal.ptrV p =>
            match setValueAt e p rest value with
            | Except.ok p2 => Except.ok (GoVal.strct (setVal fvs i (GoVal.ptrV p2)))
            | Except.error er => Except.error er
          | GoType.ptr _, GoVal.ptrNil =>
            Except.error (GoErr.panicked "indirection through nil pointer to embedded struct")
          | _, _ =>
            match setValueAt ft fv rest value with
            | Except.ok fv2 => Except.ok (GoVal.strct (setVal fvs i fv2))
            | Except.error er => Except.error er
      | _, _ => Except.error (GoErr.panicked "field index out of range") := rfl

theorem valueAt_cons (fts : Fields) (fvs : Vals) (i : Nat) (rest : List Nat) :
    valueAt (GoType.strct fts) (GoVal.strct fvs) (i :: rest) =
      match typeAt fts i, getVal fvs i with
      | some ft, some fv =>
        if rest = [] then some (ft, fv)
        else
          match ft, fv with
          | GoType.ptr e, GoVal.ptrV p => valueAt e p rest
          | GoType.ptr _, GoVal.ptrNil => none
          | _, _ => valueAt ft fv rest
      | _, _ => none := rfl

theorem setValueAt_reaches (path : List Nat) :
    ∀ (t : GoType) (v : GoVal) (ft : GoType) (fv : GoVal) (value : String),
    valueAt t v path = some (ft, fv) →
    (∀ fv2, setValue value ft fv = Except.ok fv2 →
      ∃ v2, setValueAt t v path value = Except.ok v2 ∧ valueAt t v2 path = some (ft, fv2))
    ∧ (∀ er, setValue value ft fv = Except.error er →
      setValueAt t v path value = Except.error er) := by
  induction path with
  | nil =>
    intro t v ft fv value hv
    simp only [valueAt, Option.some.injEq, Prod.mk.injEq] at hv
    obtain ⟨rfl, rfl⟩ := hv
    constructor
    · intro fv2 hs
      exact ⟨fv2, by simpa [setValueAt] using hs, rfl⟩
    · intro er hs
      simpa [setValueAt] using hs
  | cons i rest ih =>
    intro t v ft fv value hv
    cases t with
    | strct fts =>
      cases v with
      | strct fvs =>
        rw [valueAt_cons] at hv
        cases hty : typeAt fts i with
        | none => rw [hty] at hv; cases hv
        | some ft0 =>
          cases hgv : getVal fvs i with
          | none => rw [hty, hgv] at hv; simp at hv
          | some fv0 =>
            rw [hty, hgv] at hv
            simp only at hv
            by_cases hr : rest = []
            · subst hr
              simp only [if_pos rfl, Option.some.injEq, Prod.mk.injEq] at hv
              obtain ⟨rfl, rfl⟩ := hv
              constructor
              · intro fv2 hs
                refine ⟨GoVal.strct (setVal fvs i fv2), ?_, ?_⟩
                · simp [setValueAt_cons, hty, hgv, hs]
                · simp [valueAt_cons, hty, getVal_setVal_self fvs i fv fv2 hgv]
              · intro er hs
                simp [setValueAt_cons, hty, hgv, hs]
            · obtain ⟨j, r2, rfl⟩ : ∃ j r2, rest = j :: r2 := by
                cases rest with
                | nil => exact absurd rfl hr
                | cons a b => exact ⟨a, b, rfl⟩
              rw [if_neg hr] at hv
              cases ft0 with
              | ptr e =>
                cases fv0 with
                | ptrV p =>
                  obtain ⟨ihok, iherr⟩ := ih e p ft fv value hv
                  constructor
                  · intro fv2 hs
                    obtain ⟨p2, hsa, hva⟩ := ihok fv2 hs
                    refine ⟨GoVal.strct (setVal fvs i (GoVal.ptrV p2)), ?_, ?_⟩
                    · simp [setValueAt_cons, hty, hgv, hsa]
                    · simp [valueAt_cons, hty,
                        getVal_setVal_self fvs i (GoVal.ptrV p) (GoVal.ptrV p2) hgv, hva]
                  · intro er hs
                    simp [setValueAt_cons, hty, hgv, iherr er hs]
                | ptrNil => simp at hv
                | str s0 => simp [valueAt] at hv
                | bool b0 => simp [valueAt] at hv
                | int n0 => simp [valueAt] at hv
                | i64 n0 => simp [valueAt] at hv
                | i32 n0 => simp [valueAt] at hv
                | i16 n0 => simp [valueAt] at hv
                | i8 n0 => simp [valueAt] at hv
                | f64 q0 => simp [valueAt] at hv
                | f32 q0 => simp [valueAt] at hv
                | slice es => simp [valueAt] at hv
                | strct fs => simp [valueAt] at hv
                | ifaceNil => simp [valueAt] at hv
                | ifaceV dt dv => simp [valueAt] at hv
              | _ =>
                obtain ⟨ihok, iherr⟩ := ih _ _ _ _ _ hv
                constructor
                · intro fv2 hs
                  obtain ⟨w2, hsa, hva⟩ := ihok fv2 hs
                  refine ⟨GoVal.strct (setVal fvs i w2), ?_, ?_⟩
                  · simp [setValueAt_cons, hty, hgv, hsa]
                  · simp [valueAt_cons, hty, getVal_setVal_self fvs i fv0 w2 hgv, hva]
                · intro er hs
                  simp [setValueAt_cons, hty, hgv, iherr er hs]
      | _ => simp [valueAt] at hv
    | _ => cases v <;> simp [valueAt] at hv

theorem applyToLoop_flag_step
    (t : GoType) (v : GoVal) (unused rest : List String) (tok : String)
    (path : List Nat)
    (htok : startsWithDash tok = true)
    (hne : path ≠ [])
    (hfind : findFieldIndex (trimLeftDash tok) t [] = Except.ok path) :
    applyToLoop t (tok :: rest) v unused =
      match findFlagValue rest (fieldTypeAt t path) with
      | Except.error (GoErr.err m) => Except.error (GoErr.err (tok ++ "  " ++ m))
      | Except.error (GoErr.panicked m) => Except.error (GoErr.panicked m)
      | Except.ok (argValue, remain) =>
        match setValueAt t (ensureNotNil t v path) path argValue with
        | Except.error (GoErr.err m) =>
          Except.error (GoErr.err (String.mk [Char.ofNat 39] ++ tok ++
            String.mk [Char.ofNat 39] ++ "  " ++ m))
        | Except.error (GoErr.panicked m) => Except.error (GoErr.panicked m)
        | Except.ok v2 => applyToLoop t remain v2 unused := by
  obtain ⟨p0, ps, rfl⟩ : ∃ p0 ps, path = p0 :: ps := by
    cases path with
    | nil => exact absurd rfl hne
    | cons a b => exact ⟨a, b, rfl⟩
  conv_lhs => rw [applyToLoop]
  rw [if_neg (by simp [htok])]
  unfold findField
  rw [hfind]
  simp only
  cases hfv2 : findFlagValue rest (fieldTypeAt t (p0 :: ps)) with
  | error e =>
    cases e with
    | err m => rfl
    | panicked m => rfl
  | ok pr =>
    obtain ⟨argValue, remain⟩ := pr
    cases hsv : setValueAt t (ensureNotNil t v (p0 :: ps)) (p0 :: ps) argValue with
    | error e =>
      cases e with
      | err m => rfl
      | panicked m => rfl
    | ok v2 => rfl

theorem eqFold_ext (n1 n2 s : String) (h : eqFold n1 n2 = true) :
    eqFold s n1 = eqFold s n2 ∧ eqFold n1 s = eqFold n2 s := by
  unfold eqFold at h ⊢
  rw [beq_iff_eq] at h
  constructor <;> rw [h]

theorem isNameInTag_ext (n1 n2 : String) (h : eqFold n1 n2 = true) :
    ∀ tags : List String, isNameInTag n1 tags = isNameInTag n2 tags
  | [] => rfl
  | t :: rest => by
    simp only [isNameInTag]
    rw [(eqFold_ext n1 n2 t h).1]
    split
    · exact isNameInTag_ext n1 n2 h rest
    · split
      · rfl
      · exact isNameInTag_ext n1 n2 h rest

theorem directScan_ext (n1 n2 : String) (h : eqFold n1 n2 = true) :
    ∀ (fts : Fields) (i : Nat), directScan n1 fts i = directScan n2 fts i
  | Fields.nil, _ => rfl
  | Fields.cons fname tag ex ty rest, i => by
    simp only [directScan]
    rw [(eqFold_ext n1 n2 fname h).2, isNameInTag_ext n1 n2 h (splitOnComma tag)]
    split
    · exact directScan_ext n1 n2 h rest (i + 1)
    · split
      · rfl
      · split
        · rfl
        · split
          · rfl
          · exact directScan_ext n1 n2 h rest (i + 1)

mutual
theorem findFieldIndex_ext (n1 n2 : String) (h : eqFold n1 n2 = true) :
    ∀ (t : GoType) (parents : List Nat),
      findFieldIndex n1 t parents = findFieldIndex n2 t parents
  | GoType.ptr e, parents => by
    simp only [findFieldIndex]
    exact findFieldIndex_ext n1 n2 h e parents
  | GoType.strct fts, parents => by
    simp only [findFieldIndex]
    rw [directScan_ext n1 n2 h fts 0]
    split
    · rfl
    · rfl
    · exact ffiSubs_ext n1 n2 h fts 0 parents
  | GoType.string, _ => rfl
  | GoType.bool, _ => rfl
  | GoType.int, _ => rfl
  | GoType.i64, _ => rfl
  | GoType.i32, _ => rfl
  | GoType.i16, _ => rfl
  | GoType.i8, _ => rfl
  | GoType.f64, _ => rfl
  | GoType.f32, _ => rfl
  | GoType.slice e, _ => rfl
  | GoType.iface, _ => rfl

theorem ffiSubs_ext (n1 n2 : String) (h : eqFold n1 n2 = true) :
    ∀ (fts : Fields) (i : Nat) (parents : List Nat),
      ffiSubs n1 fts i parents = ffiSubs n2 fts i parents
  | Fields.nil, _, _ => rfl
  | Fields.cons fname tag ex ty rest, i, parents => by
    simp only [ffiSubs]
    split
    · rw [findFieldIndex_ext n1 n2 h ty (parents ++ [i])]
      split
      · rfl
      · rfl
      · exact ffiSubs_ext n1 n2 h rest (i + 1) parents
    · exact ffiSubs_ext n1 n2 h rest (i + 1) parents
end

theorem specAliasMatch_list (name : String) :
    ∀ tags : List String,
      ((tags.filter fun a => ¬ (a = "+" ∨ a = "-" ∨ a = "omitempty")).any
        fun a => eqFold a name) = isNameInTag name tags
  | [] => rfl
  | t :: rest => by
    simp only [isNameInTag, List.filter_cons]
    by_cases hres : t = "omitempty" ∨ t = "-" ∨ t = "+"
    · rw [if_pos hres]
      have hp : (decide ¬ (t = "+" ∨ t = "-" ∨ t = "omitempty")) = false := by
        simp only [decide_eq_false_iff_not, not_not]
        tauto
      simp only [hp, Bool.false_eq_true, if_false]
      exact specAliasMatch_list name rest
    · rw [if_neg hres]
      have hp : (decide ¬ (t = "+" ∨ t = "-" ∨ t = "omitempty")) = true := by
        simp only [decide_eq_true_eq]
        tauto
      simp only [hp, if_true, List.any_cons]
      cases heq : eqFold t name with
      | true => simp
      | false =>
        simp only [Bool.false_or]
        exact specAliasMatch_list name rest

theorem specAliasMatch_eq (name tag : String) :
    specAliasMatch name tag = isNameInTag name (splitOnComma tag) := by
  unfold specAliasMatch
  exact specAliasMatch_list name (splitOnComma tag)

theorem isSubArgTag_contains : ∀ l : List String, isSubArgTag l = l.contains "+"
  | [] => rfl
  | t :: rest => by
    simp only [isSubArgTag, List.contains_cons]
    by_cases h : t = "+"
    · subst h
      simp
    · rw [if_neg h]
      rw [isSubArgTag_contains rest]
      have hb : ("+" == t) = false := by
        simp only [beq_eq_false_iff_ne, ne_eq]
        exact fun hc => h hc.symm
      rw [hb]
      simp

theorem directScan_spec (name : String) :
    ∀ (fts : Fields) (i : Nat) (r : Option Nat),
      directScan name fts i = Except.ok r → specDirectMatch name fts i = r
  | Fields.nil, i, r, h => by
    simp only [directScan, Except.ok.injEq] at h
    simp [specDirectMatch, h]
  | Fields.cons fname tag ex ty rest, i, r, h => by
    simp only [directScan] at h
    simp only [specDirectMatch, specAliasMatch_eq]
    by_cases hex : ex = true
    · rw [if_neg (by simp [hex])] at h
      by_cases hnm : eqFold name fname = true
      · rw [if_pos hnm] at h
        rw [if_pos ⟨hex, Or.inl hnm⟩]
        exact Except.ok.inj h
      · rw [if_neg (by simp [hnm])] at h
        by_cases hal : isNameInTag name (splitOnComma tag) = true
        · rw [if_pos hal] at h
          rw [if_pos ⟨hex, Or.inr hal⟩]
          exact Except.ok.inj h
        · rw [if_neg (by simp [hal])] at h
          have hcond : ¬ (ex = true ∧ (eqFold name fname = true ∨
              isNameInTag name (splitOnComma tag) = true)) := by
            rintro ⟨-, hor⟩
            cases hor with
            | inl hl => exact hnm hl
            | inr hrr => exact hal hrr
          rw [if_neg hcond]
          split at h
          · cases h
          · exact directScan_spec name rest (i + 1) r h
    · rw [if_pos (by simp [hex])] at h
      rw [if_neg (by rintro ⟨he, -⟩; exact hex he)]
      exact directScan_spec name rest (i + 1) r h

mutual
theorem findFieldIndex_spec :
    ∀ (name : String) (t : GoType) (parents res : List Nat),
      findFieldIndex name t parents = Except.ok res → resolveSpec name t parents = res
  | name, GoType.ptr e, parents, res, h => by
    simp only [findFieldIndex] at h
    simp only [resolveSpec]
    exact findFieldIndex_spec name e parents res h
  | name, GoType.strct fts, parents, res, h => by
    simp only [findFieldIndex] at h
    simp only [resolveSpec]
    cases hds : directScan name fts 0 with
    | error m => rw [hds] at h; cases h
    | ok or =>
      rw [hds] at h
      rw [directScan_spec name fts 0 or hds]
      cases or with
      | some i =>
        simp only at h ⊢
        exact Except.ok.inj h
      | none =>
        simp only at h ⊢
        exact ffiSubs_spec name fts 0 parents res h
  | name, GoType.string, parents, res, h => by
    simp only [findFieldIndex, Except.ok.injEq] at h
    simp [resolveSpec, ← h]
  | name, GoType.bool, parents, res, h => by
    simp only [findFieldIndex, Except.ok.injEq] at h
    simp [resolveSpec, ← h]
  | name, GoType.int, parents, res, h => by
    simp only [findFieldIndex, Except.ok.injEq] at h
    simp [resolveSpec, ← h]
  | name, GoType.i64, parents, res, h => by
    simp only [findFieldIndex, Except.ok.injEq] at h
    simp [resolveSpec, ← h]
  | name, GoType.i32, parents, res, h => by
    simp only [findFieldIndex, Except.ok.injEq] at h
    simp [resolveSpec, ← h]
  | name, GoType.i16, parents, res, h => by
    simp only [findFieldIndex, Except.ok.injEq] at h
    simp [resolveSpec, ← h]
  | name, GoType.i8, parents, res, h => by
    simp only [findFieldIndex, Except.ok.injEq] at h
    simp [resolveSpec, ← h]
  | name, GoType.f64, parents, res, h => by
    simp only [findFieldIndex, Except.ok.injEq] at h
    simp [resolveSpec, ← h]
  | name, GoType.f32, parents, res, h => by
    simp only [findFieldIndex, Except.ok.injEq] at h
    simp [resolveSpec, ← h]
  | name, GoType.slice e, parents, res, h => by
    simp only [findFieldIndex, Except.ok.injEq] at h
    simp [resolveSpec, ← h]
  | name, GoType.iface, parents, res, h => by
    simp only [findFieldIndex, Except.ok.injEq] at h
    simp [resolveSpec, ← h]

theorem ffiSubs_spec :
    ∀ (name : String) (fts : Fields) (i : Nat) (parents res : List Nat),
      ffiSubs name fts i parents = Except.ok res → resolveSpecSubs name fts i parents = res
  | name, Fields.nil, i, parents, res, h => by
    simp only [ffiSubs, Except.ok.injEq] at h
    simp [resolveSpecSubs, ← h]
  | name, Fields.cons fname tag ex ty rest, i, parents, res, h => by
    simp only [ffiSubs] at h
    simp only [resolveSpecSubs]
    rw [← isSubArgTag_contains (splitOnComma tag)]
    by_cases hc : ex = true ∧ isSubArgTag (splitOnComma tag) = true
    · rw [if_pos hc] at h
      rw [if_pos hc]
      cases hfi : findFieldIndex name ty (parents ++ [i]) with
      | error m => rw [hfi] at h; cases h
      | ok is0 =>
        rw [hfi] at h
        rw [findFieldIndex_spec name ty (parents ++ [i]) is0 hfi]
        cases is0 with
        | nil =>
          simp only at h ⊢
          exact ffiSubs_spec name rest (i + 1) parents res h
        | cons x xs =>
          simp only at h ⊢
          exact Except.ok.inj h
    · rw [if_neg hc] at h
      rw [if_neg hc]
      exact ffiSubs_spec name rest (i + 1) parents res h
end

/-- C1: for a flag token resolving to a boolean field, when the next token
exists, does not start with the flag marker and parses as a boolean literal,
the token loop of ApplyTo sets the field to that literal and consumes the
token (continuing after it); otherwise — no next token, a flag token, or not
a boolean literal — it sets the field to true, consumes nothing, and the
following token is processed by the next iteration. -/
theorem c1_bool_value_window
    (t : GoType) (v : GoVal) (unused rest : List String) (tok : String)
    (path : List Nat) (fv : GoVal)
    (htok : startsWithDash tok = true)
    (hfind : findFieldIndex (trimLeftDash tok) t [] = Except.ok path)
    (hne : path ≠ [])
    (hty : fieldTypeAt t path = GoType.bool)
    (hval : valueAt t (ensureNotNil t v path) path = some (GoType.bool, fv)) :
    (∀ w rest2 b, rest = w :: rest2 → startsWithDash w = false → parseBool w = some b →
      ∃ v2, setValueAt t (ensureNotNil t v path) path w = Except.ok v2 ∧
        valueAt t v2 path = some (GoType.bool, GoVal.bool b) ∧
        applyToLoop t (tok :: rest) v unused = applyToLoop t rest2 v2 unused)
    ∧ ((rest = [] ∨ ∃ w rest2, rest = w :: rest2 ∧
          (startsWithDash w = true ∨ parseBool w = none)) →
      ∃ v2, setValueAt t (ensureNotNil t v path) path "true" = Except.ok v2 ∧
        valueAt t v2 path = some (GoType.bool, GoVal.bool true) ∧
        applyToLoop t (tok :: rest) v unused = applyToLoop t rest v2 unused) := by
  have hstep := applyToLoop_flag_step t v unused rest tok path htok hne hfind
  constructor
  · rintro w rest2 b rfl hw hpb
    have hbool : setValue w GoType.bool fv = Except.ok (GoVal.bool b) := by
      simp [setValue, asTextUnmarshaler, stringToType, hpb, reflectSet, assignable]
    obtain ⟨hok, -⟩ := setValueAt_reaches path t (ensureNotNil t v path) GoType.bool fv w hval
    obtain ⟨v2, hsa, hva⟩ := hok (GoVal.bool b) hbool
    refine ⟨v2, hsa, hva, ?_⟩
    rw [hstep, hty]
    have hwne : ¬ w = "" := by
      intro hw0
      rw [hw0] at hpb
      simp [parseBool] at hpb
    have hffv : findFlagValue (w :: rest2) GoType.bool = Except.ok (w, rest2) := by
      unfold findFlagValue
      simp [hw, hwne, hpb]
    rw [hffv]
    simp only [hsa]
  · intro hcase
    have hbool : setValue "true" GoType.bool fv = Except.ok (GoVal.bool true) := by
      simp [setValue, asTextUnmarshaler, stringToType, parseBool, reflectSet, assignable]
    obtain ⟨hok, -⟩ := setValueAt_reaches path t (ensureNotNil t v path) GoType.bool fv "true" hval
    obtain ⟨v2, hsa, hva⟩ := hok (GoVal.bool true) hbool
    refine ⟨v2, hsa, hva, ?_⟩
    rw [hstep, hty]
    have hffv : findFlagValue rest GoType.bool = Except.ok ("true", rest) := by
      unfold findFlagValue
      rcases hcase with rfl | ⟨w, rest2, rfl, hw⟩
      · simp [isBoolKind]
      · rcases hw with hw | hw
        · simp [hw, isBoolKind]
        · by_cases hsw : startsWithDash w = true
          · simp [hsw, isBoolKind]
          · simp [Bool.not_eq_true] at hsw
            simp [hsw, isBoolKind, hw]
    rw [hffv]
    simp only [hsa]

/-- C5: for a flag token resolving to a non-boolean field, when no following
token exists or the following token starts with the flag marker, the token
loop — and with it ApplyTo — aborts at once with the "no value found" error
whose message contains the offending flag token; the equation holds whatever
the later tokens are, so none of them is processed. -/
theorem c5_no_value_error
    (t rt : GoType) (v rv : GoVal) (rest : List String) (tok : String) (path : List Nat)
    (htok : startsWithDash tok = true)
    (hfind : findFieldIndex (trimLeftDash tok) t [] = Except.ok path)
    (hne : path ≠ [])
    (hty : isBoolKind (fieldTypeAt t path) = false)
    (hrest : rest = [] ∨ ∃ w rest2, rest = w :: rest2 ∧ startsWithDash w = true) :
    (∀ unused, applyToLoop t (tok :: rest) v unused
        = Except.error (GoErr.err (tok ++ "  " ++ "no value found")))
    ∧ (getStructValue rt rv = Except.ok (t, v) →
        ApplyTo (tok :: rest) rt rv
          = Except.error (GoErr.err (tok ++ "  " ++ "no value found"))) := by
  have hffv : findFlagValue rest (fieldTypeAt t path)
      = Except.error (GoErr.err "no value found") := by
    unfold findFlagValue
    rcases hrest with rfl | ⟨w, rest2, rfl, hw⟩
    · simp [hty]
    · simp [hty, hw]
  have hloop : ∀ unused, applyToLoop t (tok :: rest) v unused
      = Except.error (GoErr.err (tok ++ "  " ++ "no value found")) := by
    intro unused
    rw [applyToLoop_flag_step t v unused rest tok path htok hne hfind, hffv]
  refine ⟨hloop, fun hgs => ?_⟩
  unfold ApplyTo
  rw [hgs]
  exact hloop []

/-- Companion fact for the promoted sub-structure claim: walking a path
through a nil pointer field allocates a zero-valued sub-structure there. -/
theorem ensureNotNil_alloc (fts sfts : Fields) (fvs : Vals) (k : Nat) (js : List Nat)
    (hty : typeAt fts k = some (GoType.ptr (GoType.strct sfts)))
    (hnil : getVal fvs k = some GoVal.ptrNil) :
    ensureNotNil (GoType.strct fts) (GoVal.strct fvs) (k :: js)
      = GoVal.strct (setVal fvs k (GoVal.ptrV
          (ensureNotNil (GoType.strct sfts) (zeroVal (GoType.strct sfts)) js))) := by
  simp only [ensureNotNil, hty, hnil]

/-- C4: for a record whose promoted sub-structure pointer field is nil,
applying a flag that resolves into that sub-structure first materialises the
field with a pointer to a zero-valued sub-structure, then sets the nested
field to the coerced value; after the step the outer pointer field is
non-nil. -/
theorem c4_nested_allocation
    (fts sfts : Fields) (fvs : Vals) (k : Nat) (js : List Nat)
    (tok value : String) (rest unused : List String)
    (ft : GoType) (fv fv2 : GoVal)
    (htok : startsWithDash tok = true)
    (hfind : findFieldIndex (trimLeftDash tok) (GoType.strct fts) [] = Except.ok (k :: js))
    (hjs : js ≠ [])
    (hty : typeAt fts k = some (GoType.ptr (GoType.strct sfts)))
    (hnil : getVal fvs k = some GoVal.ptrNil)
    (hft : fieldTypeAt (GoType.strct fts) (k :: js) = ft)
    (hftb : isBoolKind ft = false)
    (hvtok : startsWithDash value = false)
    (hvne : value ≠ "")
    (hval : valueAt (GoType.strct fts)
        (ensureNotNil (GoType.strct fts) (GoVal.strct fvs) (k :: js)) (k :: js)
        = some (ft, fv))
    (hset : setValue value ft fv = Except.ok fv2) :
    ensureNotNil (GoType.strct fts) (GoVal.strct fvs) (k :: js)
      = GoVal.strct (setVal fvs k (GoVal.ptrV
          (ensureNotNil (GoType.strct sfts) (zeroVal (GoType.strct sfts)) js)))
    ∧ ∃ v2, applyToLoop (GoType.strct fts) (tok :: value :: rest) (GoVal.strct fvs) unused
          = applyToLoop (GoType.strct fts) rest v2 unused
        ∧ valueAt (GoType.strct fts) v2 (k :: js) = some (ft, fv2)
        ∧ ∃ p2, valueAt (GoType.strct fts) v2 [k]
            = some (GoType.ptr (GoType.strct sfts), GoVal.ptrV p2) := by
  have hens := ensureNotNil_alloc fts sfts fvs k js hty hnil
  refine ⟨hens, ?_⟩
  have hstep := applyToLoop_flag_step (GoType.strct fts) (GoVal.strct fvs) unused
    (value :: rest) tok (k :: js) htok (by simp) hfind
  have hffv : findFlagValue (value :: rest) ft = Except.ok (value, rest) := by
    unfold findFlagValue
    simp [hvtok, hvne, hftb]
  obtain ⟨hok, -⟩ := setValueAt_reaches (k :: js) (GoType.strct fts)
    (ensureNotNil (GoType.strct fts) (GoVal.strct fvs) (k :: js)) ft fv value hval
  obtain ⟨v2, hsa, hva⟩ := hok fv2 hset
  refine ⟨v2, ?_, hva, ?_⟩
  · rw [hstep, hft, hffv]
    simp only [hsa]
  · -- shape of v2: unfold the first step of setValueAt
    set p0 := ensureNotNil (GoType.strct sfts) (zeroVal (GoType.strct sfts)) js with hp0
    rw [hens] at hsa
    rw [setValueAt_cons] at hsa
    rw [hty] at hsa
    rw [getVal_setVal_self fvs k GoVal.ptrNil (GoVal.ptrV p0) hnil] at hsa
    simp only at hsa
    rw [if_neg hjs] at hsa
    cases hinner : setValueAt (GoType.strct sfts) p0 js value with
    | error er => rw [hinner] at hsa; cases hsa
    | ok p2 =>
      rw [hinner] at hsa
      simp only [Except.ok.injEq] at hsa
      refine ⟨p2, ?_⟩
      rw [← hsa]
      rw [valueAt_cons]
      rw [hty]
      have hg1 : getVal (setVal fvs k (GoVal.ptrV p0)) k = some (GoVal.ptrV p0) :=
        getVal_setVal_self fvs k GoVal.ptrNil (GoVal.ptrV p0) hnil
      rw [getVal_setVal_self (setVal fvs k (GoVal.ptrV p0)) k (GoVal.ptrV p0) (GoVal.ptrV p2) hg1]
      simp

/-- Companion fact for the dash-token claim: a tag list containing the
empty string matches the empty flag name. -/
theorem isNameInTag_empty : ∀ tags : List String, "" ∈ tags → isNameInTag "" tags = true
  | t :: rest, h => by
    simp only [isNameInTag]
    by_cases hres : t = "omitempty" ∨ t = "-" ∨ t = "+"
    · rw [if_pos hres]
      apply isNameInTag_empty rest
      rcases List.mem_cons.mp h with rfl | hm
      · exfalso
        rcases hres with h1 | h1 | h1 <;> exact absurd h1 (by decide)
      · exact hm
    · rw [if_neg hres]
      by_cases heq : eqFold t "" = true
      · rw [if_pos heq]
      · rw [if_neg heq]
        apply isNameInTag_empty rest
        rcases List.mem_cons.mp h with rfl | hm
        · exact absurd rfl heq
        · exact hm

/-- Companion fact for the dash-token claim: when the first exported field's
tag splits to a list containing the empty string, the direct scan resolves
the empty name to that field. -/
theorem directScan_empty_first : ∀ (fts : Fields) (k i : Nat),
    firstExported fts = some k →
    (∃ tg, tagAt fts k = some tg ∧ "" ∈ splitOnComma tg) →
    directScan "" fts i = Except.ok (some (i + k))
  | Fields.nil, k, i, hfe, _ => by simp [firstExported] at hfe
  | Fields.cons fname tag ex ty rest, k, i, hfe, htg => by
    simp only [firstExported] at hfe
    by_cases hex : ex = true
    · rw [if_pos hex] at hfe
      injection hfe with hk
      subst hk
      obtain ⟨tg, htag, hmem⟩ := htg
      simp only [tagAt] at htag
      injection htag with htg2
      subst htg2
      simp only [directScan]
      rw [if_neg (by simp [hex])]
      by_cases hnm : eqFold "" fname = true
      · rw [if_pos hnm]
        simp
      · rw [if_neg hnm]
        simp only [isNameInTag_empty _ hmem, if_true]
        simp
    · rw [if_neg hex] at hfe
      cases hfe2 : firstExported rest with
      | none => rw [hfe2] at hfe; cases hfe
      | some k2 =>
        rw [hfe2] at hfe
        simp only [Option.map_some'] at hfe
        injection hfe with hk
        subst hk
        obtain ⟨tg, htag, hmem⟩ := htg
        simp only [tagAt] at htag
        simp only [directScan]
        rw [if_pos (by simp [hex])]
        rw [directScan_empty_first rest k2 (i + 1) hfe2 ⟨tg, htag, hmem⟩]
        congr 2
        omega

/-- Companion fact for the dash-token claim: a string of only dashes trims
to the empty string. -/
theorem dropDashes_all : ∀ cs : List Char, (∀ c ∈ cs, c = '-') → dropDashes cs = []
  | [], _ => rfl
  | c :: rest, h => by
    have hc : c = '-' := h c (by simp)
    simp only [dropDashes, if_pos hc]
    exact dropDashes_all rest fun x hx => h x (by simp [hx])

/-- C10: a token of only flag-marker characters strips to the empty name,
which resolves to the first exported field whose tag list contains the empty
alias (an absent tag splits to the one-element list holding the empty
string); the token is therefore treated as a flag for that field — the
no-value error for a non-boolean field, or value handling for a boolean
one — and is never routed to the unused list. -/
theorem c10_dash_only_flag
    (fts : Fields) (v : GoVal) (unused : List String) (tok : String) (k : Nat)
    (htok : tok ≠ "")
    (hdash : ∀ c ∈ tok.data, c = '-')
    (hfe : firstExported fts = some k)
    (htg : ∃ tg, tagAt fts k = some tg ∧ "" ∈ splitOnComma tg) :
    findFieldIndex (trimLeftDash tok) (GoType.strct fts) [] = Except.ok [k]
    ∧ (isBoolKind (fieldTypeAt (GoType.strct fts) [k]) = false →
        applyToLoop (GoType.strct fts) [tok] v unused
          = Except.error (GoErr.err (tok ++ "  " ++ "no value found")))
    ∧ ((∃ er, applyToLoop (GoType.strct fts) [tok] v unused = Except.error er)
        ∨ ∃ v2, applyToLoop (GoType.strct fts) [tok] v unused = Except.ok (unused, v2)) := by
  have hstrip : trimLeftDash tok = "" := by
    unfold trimLeftDash
    rw [dropDashes_all tok.data hdash]
  have hsw : startsWithDash tok = true := by
    unfold startsWithDash
    cases hd : tok.data with
    | nil =>
      exfalso
      apply htok
      cases tok with
      | mk cs =>
        simp only [String.data] at hd
        rw [hd]
    | cons c cs =>
      have hc : c = '-' := hdash c (by rw [hd]; exact List.mem_cons_self c cs)
      subst hc
      rfl
  have hfi0 : findFieldIndex "" (GoType.strct fts) [] = Except.ok [k] := by
    simp only [findFieldIndex]
    rw [directScan_empty_first fts k 0 hfe htg]
    simp
  have hfi : findFieldIndex (trimLeftDash tok) (GoType.strct fts) [] = Except.ok [k] := by
    rw [hstrip]
    exact hfi0
  have hstep := applyToLoop_flag_step (GoType.strct fts) v unused [] tok [k] hsw
    (by simp) hfi
  have hnoval : isBoolKind (fieldTypeAt (GoType.strct fts) [k]) = false →
      applyToLoop (GoType.strct fts) [tok] v unused
        = Except.error (GoErr.err (tok ++ "  " ++ "no value found")) := by
    intro hnb
    rw [hstep]
    have hffv : findFlagValue [] (fieldTypeAt (GoType.strct fts) [k])
        = Except.error (GoErr.err "no value found") := by
      unfold findFlagValue
      simp [hnb]
    rw [hffv]
  refine ⟨hfi, hnoval, ?_⟩
  cases hb : isBoolKind (fieldTypeAt (GoType.strct fts) [k]) with
  | false => exact Or.inl ⟨_, hnoval hb⟩
  | true =>
    rw [hstep]
    have hffv : findFlagValue [] (fieldTypeAt (GoType.strct fts) [k])
        = Except.ok ("true", []) := by
      unfold findFlagValue
      simp [hb]
    rw [hffv]
    cases hsv : setValueAt (GoType.strct fts)
        (ensureNotNil (GoType.strct fts) v [k]) [k] "true" with
    | error er =>
      cases er with
      | err m =>
        simp only [hsv]
        exact Or.inl ⟨_, rfl⟩
      | panicked m =>
        simp only [hsv]
        exact Or.inl ⟨_, rfl⟩
    | ok v2 =>
      simp only [hsv]
      refine Or.inr ⟨v2, ?_⟩
      simp only [applyToLoop]

/-- Companion fact for the integer claim: ParseInt with base 64 fails on
every input string. -/
theorem goParseInt_base64 (s : String) : ∃ m, goParseInt s 64 64 = Except.error m := by
  unfold goParseInt
  cases hd : s.data with
  | nil => exact ⟨_, rfl⟩
  | cons c cs =>
    simp only
    have hb : ¬ (2 ≤ 64 ∧ 64 ≤ 36) := by omega
    rw [if_pos hb]
    exact ⟨if (if c = '-' ∨ c = '+' then cs else c :: cs) = [] then "invalid syntax"
        else "invalid base " ++ Nat.repr 64,
      by split <;> split <;> rfl⟩

/-- C2: contrary to the claim that signed-integer fields of any width parse
as base-10 integers, only the plain int kind does (via strconv.Atoi); the
int64/int32/int16/int8 arm calls strconv.ParseInt(s, 64, 64), and base 64 is
rejected by ParseInt, so coercion fails for every input — including the
plainly in-range numeral "5". -/
theorem c2_int_widths_never_parse :
    stringToType "5" GoType.int = Except.ok (GoVal.int 5)
    ∧ stringToType "5" GoType.i64 = Except.error (GoErr.err "invalid base 64")
    ∧ (∀ s : String, ∃ m, stringToType s GoType.i64 = Except.error (GoErr.err m)
        ∧ stringToType s GoType.i32 = Except.error (GoErr.err m)
        ∧ stringToType s GoType.i16 = Except.error (GoErr.err m)
        ∧ stringToType s GoType.i8 = Except.error (GoErr.err m)) := by
  refine ⟨rfl, rfl, ?_⟩
  intro s
  obtain ⟨m, hm⟩ := goParseInt_base64 s
  exact ⟨m, by simp [stringToType, hm], by simp [stringToType, hm],
    by simp [stringToType, hm], by simp [stringToType, hm]⟩

/-- C9: contrary to the claim that a 32-bit float field is assigned the
narrowed parse result without error, the float32 arm of stringToType returns
a value of dynamic type float64 (ParseFloat's result), and the reflect field
write then panics on the float64-to-float32 type mismatch, for every string
the parser accepts. -/
theorem c9_float32_set_panics :
    (∃ q, stringToType "1.5" GoType.f32 = Except.ok (GoVal.f64 q))
    ∧ setValue "1.5" GoType.f32 (zeroVal GoType.f32)
        = Except.error (GoErr.panicked
            "reflect.Set: value of type float64 is not assignable to type float32")
    ∧ (∀ (s : String) (q : Rat) (fld : GoVal),
        goParseFloat s 32 = Except.ok q →
        setValue s GoType.f32 fld
          = Except.error (GoErr.panicked
              "reflect.Set: value of type float64 is not assignable to type float32")) := by
  refine ⟨⟨_, rfl⟩, ?_, ?_⟩
  · simp [setValue, asTextUnmarshaler, stringToType, goParseFloat, isDigitChar,
      reflectSet, assignable, dynTypeName, typeName, zeroVal]
  · intro s q fld hq
    simp [setValue, asTextUnmarshaler, stringToType, hq, reflectSet, assignable,
      dynTypeName, typeName]

/-- C3 counterexample: a pointer to an interface wrapping a structure is
rejected by ApplyTo with the Unresolvable Target error — isStructPointer
demands that the pointee kind itself be a struct, and the interface-handling
branch of getStructValue sits behind that gate, unreachable. -/
theorem c3_counterexample_ptr_iface :
    ApplyTo ["-x"] (GoType.ptr GoType.iface)
      (GoVal.ptrV (GoVal.ifaceV (GoType.strct Fields.nil) (GoVal.strct Vals.nil)))
      = Except.error (GoErr.err "flags can only be applied to a struct pointer") := rfl

/-- C3 amended: ApplyTo accepts exactly a pointer to a structure; every
other argument — a pointer to an interface wrapping a structure included —
yields the Unresolvable Target error immediately, before any token is
processed, with no field written and a nil unused list. -/
theorem c3_struct_pointer_only
    (args : List String) :
    (∀ (fts : Fields) (pv : GoVal),
      ApplyTo args (GoType.ptr (GoType.strct fts)) (GoVal.ptrV pv)
        = applyToLoop (GoType.strct fts) args pv [])
    ∧ (∀ (t : GoType) (v : GoVal), isStructPointer t = false →
      ApplyTo args t v
        = Except.error (GoErr.err "flags can only be applied to a struct pointer")) := by
  constructor
  · intro fts pv
    rfl
  · intro t v h
    unfold ApplyTo getStructValue
    rw [h]
    rfl

theorem c3_witness :
    ApplyTo ["-x", "pos"] (GoType.ptr GoType.iface)
      (GoVal.ptrV (GoVal.ifaceV (GoType.strct Fields.nil) (GoVal.strct Vals.nil)))
      = Except.error (GoErr.err "flags can only be applied to a struct pointer") :=
  (c3_struct_pointer_only ["-x", "pos"]).2 (GoType.ptr GoType.iface)
    (GoVal.ptrV (GoVal.ifaceV (GoType.strct Fields.nil) (GoVal.strct Vals.nil))) rfl

/-- Companion fact for the string-slice claim: assigning the split of any
value into a string slice builds exactly the corresponding string values. -/
theorem setSliceElems_string : ∀ ss : List String,
    setSliceElems ss GoType.string = Except.ok (strVals ss)
  | [] => by simp [setSliceElems, strVals]
  | s :: rest => by
    have he : setValue s GoType.string (zeroVal GoType.string) = Except.ok (GoVal.str s) := by
      simp [setValue, asTextUnmarshaler, stringToType, reflectSet, assignable, zeroVal]
    simp [setSliceElems, he, setSliceElems_string rest, strVals]

/-- C6: assigning a raw value to a string-slice field splits it on the comma
with no trimming or quoting: the input "a,b,c" yields the three-element
collection ["a","b","c"], and the empty string yields the one-element
collection containing the empty string, never a zero-length collection. -/
theorem c6_string_slice_split :
    (∀ (s : String) (fld : GoVal),
      setValue s (GoType.slice GoType.string) fld
        = Except.ok (GoVal.slice (strVals (splitOnComma s))))
    ∧ splitOnComma "a,b,c" = ["a", "b", "c"]
    ∧ (splitOnComma "a,b,c").length = 3
    ∧ splitOnComma "" = [""] := by
  refine ⟨?_, rfl, rfl, rfl⟩
  intro s fld
  simp [setValue, asTextUnmarshaler, setFieldSlice, setSliceElems_string (splitOnComma s)]

/-- Companion fact for the slice-failure claim: the element loop of
setFieldSlice propagates the first failing element's error. -/
theorem setSliceElems_first_err (e : GoType) (s : String) (post : List String) (er : GoErr)
    (hs : setValue s e (zeroVal e) = Except.error er) :
    ∀ pre : List String, (∀ x ∈ pre, ∃ w, setValue x e (zeroVal e) = Except.ok w) →
      setSliceElems (pre ++ s :: post) e = Except.error er
  | [], _ => by simp [setSliceElems, hs]
  | x :: pre2, hp => by
    obtain ⟨w, hw⟩ := hp x (by simp)
    have hrec := setSliceElems_first_err e s post er hs pre2 fun y hy => hp y (by simp [hy])
    simp [setSliceElems, hw, hrec]

/-- C7: when coercing any element of the split value fails, the whole
collection assignment — setFieldSlice, setValue on the slice field, and the
field write along a path — returns that element's error, so the partially
built collection is never installed and the field keeps its previous
value. -/
theorem c7_slice_element_failure
    (e : GoType) (pre post : List String) (s : String) (er : GoErr)
    (hpre : ∀ x ∈ pre, ∃ w, setValue x e (zeroVal e) = Except.ok w)
    (hs : setValue s e (zeroVal e) = Except.error er) :
    setFieldSlice (pre ++ s :: post) e = Except.error er
    ∧ (∀ (value : String) (fld : GoVal),
        splitOnComma value = pre ++ s :: post →
        setValue value (GoType.slice e) fld = Except.error er)
    ∧ (∀ (value : String) (t : GoType) (v : GoVal) (path : List Nat) (old : GoVal),
        splitOnComma value = pre ++ s :: post →
        valueAt t v path = some (GoType.slice e, old) →
        setValueAt t v path value = Except.error er) := by
  have hfs : setFieldSlice (pre ++ s :: post) e = Except.error er := by
    have := setSliceElems_first_err e s post er hs pre hpre
    simp [setFieldSlice, this]
  have hsv : ∀ (value : String) (fld : GoVal), splitOnComma value = pre ++ s :: post →
      setValue value (GoType.slice e) fld = Except.error er := by
    intro value fld hsplit
    simp [setValue, asTextUnmarshaler, hsplit, hfs]
  refine ⟨hfs, hsv, ?_⟩
  intro value t v path old hsplit hat
  obtain ⟨-, herr⟩ := setValueAt_reaches path t v (GoType.slice e) old value hat
  exact herr er (hsv value old hsplit)

/-- C8: field resolution is case-insensitive — two names equal under case
folding resolve identically — and every successful resolution agrees with the
spec's reference resolver, which scans declaration order first-match-wins,
checks a field's declared name before its aliases, and checks all direct
fields before descending into promoted sub-structures in declaration
order. -/
theorem c8_resolution_order :
    (∀ (n1 n2 : String) (t : GoType) (parents : List Nat), eqFold n1 n2 = true →
      findFieldIndex n1 t parents = findFieldIndex n2 t parents)
    ∧ (∀ (name : String) (t : GoType) (parents res : List Nat),
      findFieldIndex name t parents = Except.ok res → resolveSpec name t parents = res) :=
  ⟨fun n1 n2 t parents h => findFieldIndex_ext n1 n2 h t parents,
   fun name t parents res h => findFieldIndex_spec name t parents res h⟩

theorem c1_witness : ∃ v2,
    setValueAt recBoolT (ensureNotNil recBoolT recBoolV [0]) [0] "true" = Except.ok v2
    ∧ valueAt recBoolT v2 [0] = some (GoType.bool, GoVal.bool true)
    ∧ applyToLoop recBoolT ["-verbose", "true"] recBoolV []
        = applyToLoop recBoolT [] v2 [] :=
  (c1_bool_value_window recBoolT recBoolV [] ["true"] "-verbose" [0] (GoVal.bool false)
    rfl rfl (by simp) rfl rfl).1 "true" [] true rfl rfl rfl

theorem c4_witness : ∃ v2,
    applyToLoop recSubT ["-port", "8080"] recSubV [] = applyToLoop recSubT [] v2 []
    ∧ valueAt recSubT v2 [0, 0] = some (GoType.int, GoVal.int 8080)
    ∧ ∃ p2, valueAt recSubT v2 [0]
        = some (GoType.ptr (GoType.strct recPortFields), GoVal.ptrV p2) :=
  (c4_nested_allocation recSubFields recPortFields recSubVals 0 [0] "-port" "8080" [] []
    GoType.int (GoVal.int 0) (GoVal.int 8080)
    rfl rfl (by simp) rfl rfl rfl rfl rfl (by decide) rfl
    (by simp [setValue, asTextUnmarshaler, stringToType, atoi, goParseInt,
      digitsVal, digitVal, reflectSet, assignable])).2

theorem c5_witness :
    ApplyTo ["-count", "-x"] (GoType.ptr recIntT) (GoVal.ptrV recIntV)
      = Except.error (GoErr.err ("-count" ++ "  " ++ "no value found")) :=
  (c5_no_value_error recIntT (GoType.ptr recIntT) recIntV (GoVal.ptrV recIntV)
    ["-x"] "-count" [0] rfl rfl (by simp) rfl
    (Or.inr ⟨"-x", [], rfl, rfl⟩)).2 rfl

theorem c7_witness :
    setFieldSlice ["1", "x", "3"] GoType.int = Except.error (GoErr.err "invalid syntax") :=
  (c7_slice_element_failure GoType.int ["1"] ["3"] "x" (GoErr.err "invalid syntax")
    (by
      intro x hx
      simp only [List.mem_singleton] at hx
      subst hx
      exact ⟨GoVal.int 1, by simp [setValue, asTextUnmarshaler, stringToType, atoi,
        goParseInt, digitsVal, digitVal, zeroVal, reflectSet, assignable]⟩)
    (by simp [setValue, asTextUnmarshaler, stringToType, atoi, goParseInt,
      digitsVal, digitVal, zeroVal])).1

theorem c8_witness :
    findFieldIndex "VERBOSE" recBoolT [] = findFieldIndex "verbose" recBoolT []
    ∧ resolveSpec "port" recSubT [] = [0, 0] :=
  ⟨c8_resolution_order.1 "VERBOSE" "verbose" recBoolT [] rfl,
   c8_resolution_order.2 "port" recSubT [] [0, 0] rfl⟩

theorem c9_witness :
    setValue "2.25" GoType.f32 (zeroVal GoType.f32)
      = Except.error (GoErr.panicked
          "reflect.Set: value of type float64 is not assignable to type float32") :=
  c9_float32_set_panics.2.2 "2.25" (ratOfParts false [Char.ofNat 50] [Char.ofNat 50, Char.ofNat 53])
    (zeroVal GoType.f32) rfl

theorem c10_witness :
    applyToLoop (GoType.strct (Fields.cons "Name" "" true GoType.string Fields.nil)) ["-"]
      (GoVal.strct (Vals.cons (GoVal.str "") Vals.nil)) []
      = Except.error (GoErr.err ("-" ++ "  " ++ "no value found")) :=
  (c10_dash_only_flag (Fields.cons "Name" "" true GoType.string Fields.nil)
    (GoVal.strct (Vals.cons (GoVal.str "") Vals.nil)) [] "-" 0
    (by decide) (by decide) rfl ⟨"", rfl, by decide⟩).2.1 rfl
